import Mathlib

/-!
# Verification of the compressfs transparent-compression layer

A shallow embedding of the absfs/compressfs Go package: algorithm tags,
suffix translation, magic-byte detection, the policy engine
(`selectAlgorithm`, `autoTuneLevel`), the compressed-file handle state
machine (`newCompressedFile`, `Handle.write`, `Handle.close`,
`Handle.seek`), and the wrapper facade's open/read/write paths.  The five
external codec libraries are out of scope of the repository and are
modelled from the spec's codec contract by an executable run-length codec
that prepends the codec's magic signature.  Machine strings are Lean
`String`s, bytes are `Nat`s, and the underlying filesystem is an
association list from physical names to byte lists.
-/

set_option autoImplicit false

namespace CompressFS

/-- Algorithm tags, the closed enumeration from compressfs.go
(the `Auto` sentinel and the empty tag are represented by `Option Algorithm`
at use sites, mirroring the Go empty string). -/
inductive Algorithm
  | gzip
  | zstd
  | lz4
  | brotli
  | snappy
deriving DecidableEq

/-- Canonical suffix for an algorithm, from the `extensionMap` table. -/
def GetExtension : Algorithm → String
  | .gzip => ".gz"
  | .zstd => ".zst"
  | .lz4 => ".lz4"
  | .brotli => ".br"
  | .snappy => ".sz"

/-- The `reverseExtensionMap` table: known (canonical and alias) compression
extensions mapped back to algorithms. -/
def reverseExtensionMap : List (String × Algorithm) :=
  [(".gz", .gzip), (".gzip", .gzip), (".zst", .zstd), (".zstd", .zstd),
   (".lz4", .lz4), (".br", .brotli), (".sz", .snappy), (".snappy", .snappy)]

/-- ASCII lower-casing of one character, as Go's strings.ToLower acts on the
ASCII extensions involved here. -/
def toLowerChar (c : Char) : Char :=
  if 'A' ≤ c ∧ c ≤ 'Z' then Char.ofNat (c.toNat + 32) else c

/-- ASCII lower-casing of a character list. -/
def toLowerChars (s : List Char) : List Char := s.map toLowerChar

/-- Characters of the final path element (after the last slash). -/
def lastComponent (s : List Char) : List Char :=
  ((s.reverse.takeWhile (fun c => c ≠ '/')).reverse)

/-- Go `filepath.Ext` semantics on character lists: the suffix beginning at
the final dot in the final path element, or `[]` when there is none. -/
def extChars (s : List Char) : List Char :=
  let comp := lastComponent s
  let tail := comp.reverse.takeWhile (fun c => c ≠ '.')
  if tail.length = comp.length then [] else '.' :: tail.reverse

/-- Go `filepath.Ext` on strings. -/
def filepathExt (s : String) : String := ⟨extChars s.data⟩

/-- Lookup of a (lower-cased) extension in `reverseExtensionMap`. -/
def lookupExtension (ext : String) : Option Algorithm :=
  (reverseExtensionMap.find? (fun p => p.1 == ext)).map (·.2)

/-- Source `DetectAlgorithmFromExtension`: map the lower-cased final
extension through `reverseExtensionMap`. -/
def DetectAlgorithmFromExtension (name : String) : Option Algorithm :=
  lookupExtension ⟨toLowerChars (filepathExt name).data⟩

/-- Source `HasCompressionExtension`. -/
def HasCompressionExtension (name : String) : Bool :=
  (DetectAlgorithmFromExtension name).isSome

/-- The name with its final extension removed (Go `strings.TrimSuffix(name, filepath.Ext(name))`). -/
def trimExt (s : String) : String :=
  ⟨s.data.take (s.data.length - (extChars s.data).length)⟩

/-- Source `AddExtension`: append the algorithm's suffix, or replace
the original extension when `preserveOriginal` is false. -/
def AddExtension (name : String) (algo : Algorithm) (preserveOriginal : Bool) : String :=
  if preserveOriginal then name ++ GetExtension algo
  else trimExt name ++ GetExtension algo

/-- Magic signature of each algorithm, from the `magicBytes` table
(note: the table does contain a partial brotli first-frame signature). -/
def magicOf : Algorithm → List Nat
  | .gzip => [0x1f, 0x8b]
  | .zstd => [0x28, 0xb5, 0x2f, 0xfd]
  | .lz4 => [0x04, 0x22, 0x4d, 0x18]
  | .brotli => [0xce, 0xb2, 0xcf, 0x81]
  | .snappy => [0xff, 0x06, 0x00, 0x00, 0x73, 0x4e, 0x61, 0x50]

/-- The `magicBytes` map as an association list (the order is immaterial:
the five signatures differ pairwise in their first byte). -/
def magicBytes : List (Algorithm × List Nat) :=
  [(.gzip, magicOf .gzip), (.zstd, magicOf .zstd), (.lz4, magicOf .lz4),
   (.brotli, magicOf .brotli), (.snappy, magicOf .snappy)]

/-- Source `IsCompressed`: the first algorithm whose magic signature
is a prefix of the data, if any (Go returns `("", false)` for none). -/
def IsCompressed (data : List Nat) : Option Algorithm :=
  (magicBytes.find? (fun p => p.2.isPrefixOf data)).map (·.1)

/-- Source `DetectCompressionAlgorithm` from helpers.go delegates to `IsCompressed`. -/
def DetectCompressionAlgorithm (data : List Nat) : Option Algorithm :=
  IsCompressed data

/-! ## Model codec

Modelled from the spec: the five compression codec libraries (gzip, zstd,
lz4, brotli, snappy) are external collaborators that the spec only
constrains through the codec contract — a streaming encoder whose output
starts with the codec's magic signature and a decoder that inverts it.
The model is a run-length codec (runs capped at 255, so counts fit a
byte) behind the algorithm's magic signature.  Levels change only the
ratio of real codecs, never the decoded bytes, so the model ignores them. -/

/-- Run-length pairs (count, byte) of a byte list, runs capped at 255. -/
def rlePairs : List Nat → List (Nat × Nat)
  | [] => []
  | c :: cs =>
    match rlePairs cs with
    | [] => [(1, c)]
    | (n, d) :: t => if c = d ∧ n < 255 then (n + 1, c) :: t else (1, c) :: (n, d) :: t

/-- Serialize run-length pairs as a flat byte list. -/
def flattenPairs : List (Nat × Nat) → List Nat
  | [] => []
  | (n, c) :: t => n :: c :: flattenPairs t

/-- Expand run-length pairs back to bytes. -/
def expandPairs : List (Nat × Nat) → List Nat
  | [] => []
  | (n, c) :: t => List.replicate n c ++ expandPairs t

/-- Decode a flat run-length byte list. -/
def rleUnflat : List Nat → List Nat
  | n :: c :: rest => List.replicate n c ++ rleUnflat rest
  | _ => []

/-- Modelled from the spec: the codec's streaming encoder output for a byte
stream — the magic signature followed by the run-length payload.  The level
is accepted (as by the factories in algorithms.go) but does not change the
decoded bytes. -/
def encode (a : Algorithm) (_level : Int) (b : List Nat) : List Nat :=
  magicOf a ++ flattenPairs (rlePairs b)

/-- Modelled from the spec: the codec's streaming decoder, inverse of
`encode`. -/
def decode (a : Algorithm) (data : List Nat) : List Nat :=
  rleUnflat (data.drop (magicOf a).length)

theorem rleUnflat_flattenPairs (p : List (Nat × Nat)) :
    rleUnflat (flattenPairs p) = expandPairs p := by
  induction p with
  | nil => rfl
  | cons nc t ih =>
    obtain ⟨n, c⟩ := nc
    simp [flattenPairs, expandPairs, rleUnflat, ih]

theorem expandPairs_rlePairs (b : List Nat) : expandPairs (rlePairs b) = b := by
  induction b with
  | nil => rfl
  | cons c cs ih =>
    rw [rlePairs]
    cases h : rlePairs cs with
    | nil =>
      rw [h] at ih
      simp [expandPairs, ih.symm]
    | cons nd t =>
      obtain ⟨n, d⟩ := nd
      rw [h] at ih
      by_cases hcd : c = d ∧ n < 255
      · simp only [hcd, and_self, if_true]
        rw [expandPairs, List.replicate_succ]
        simp only [expandPairs] at ih
        simp [ih]
      · simp only [hcd, if_false]
        rw [expandPairs, List.replicate_one]
        simpa using ih

/-- The model codec satisfies the spec's codec contract: decoding an encoded
stream recovers the original bytes. -/
theorem decode_encode (a : Algorithm) (level : Int) (b : List Nat) :
    decode a (encode a level b) = b := by
  unfold decode encode
  rw [List.drop_left, rleUnflat_flattenPairs, expandPairs_rlePairs]

/-! ## Configuration and policy engine (compressfs.go) -/

/-- A compiled algorithm rule: the compiled regex is embedded as its
matching function, as the source stores `compiledRule.pattern` and calls
only `MatchString`. -/
structure AlgorithmRule where
  pattern : String → Bool
  algorithm : Algorithm
  level : Int

/-- The configuration fields consumed by the embedded operations.  The
compiled skip-pattern regex is embedded as its matching function (`skip`
is `nil` in Go when no patterns are given; the constant-false function
plays that role here). -/
structure Config where
  algorithm : Algorithm
  level : Int
  skip : String → Bool
  autoDetect : Bool
  preserveExtension : Bool
  stripExtension : Bool
  minSize : Nat
  rules : List AlgorithmRule
  enableAutoTuning : Bool
  autoTuneSizeThreshold : Nat

/-- Source `FS.shouldSkip`. -/
def shouldSkip (cfg : Config) (name : String) : Bool := cfg.skip name

/-- Source `FS.getDefaultLevel`.  (The Go `default:` case returns
the configured level for tags outside the closed enumeration and is
unreachable for the five tags modelled here.) -/
def getDefaultLevel : Algorithm → Int
  | .gzip => 6
  | .zstd => 3
  | .lz4 => 1
  | .brotli => 6
  | .snappy => 0

/-- Source `FS.autoTuneLevel`: below the threshold the configured
level; above it the hand-tuned table with a 10 MiB crossover. -/
def autoTuneLevel (cfg : Config) (algo : Algorithm) (fileSize : Nat) : Int :=
  if fileSize < cfg.autoTuneSizeThreshold then cfg.level
  else
    match algo with
    | .gzip => if fileSize > 10 * 1024 * 1024 then 3 else 4
    | .zstd => if fileSize > 10 * 1024 * 1024 then 1 else 2
    | .brotli => if fileSize > 10 * 1024 * 1024 then 3 else 4
    | .lz4 => 1
    | .snappy => 0

/-- Source `FS.selectAlgorithm`: first matching rule wins (a
negative rule level is replaced by the algorithm's default level); with no
matching rule, the configured algorithm with the configured level,
auto-tuned when enabled and the size is known. -/
def selectAlgorithm (cfg : Config) (name : String) (fileSize : Nat) :
    Algorithm × Int × Bool :=
  match cfg.rules.find? (fun r => r.pattern name) with
  | some r =>
    (r.algorithm, if r.level < 0 then getDefaultLevel r.algorithm else r.level, false)
  | none =>
    let level :=
      if cfg.enableAutoTuning ∧ 0 < fileSize then autoTuneLevel cfg cfg.algorithm fileSize
      else cfg.level
    (cfg.algorithm, level, true)

/-! ## The underlying store

The underlying absfs filesystem, as far as the embedded operations
observe it: a finite map from physical names to byte contents, as an
association list. -/

/-- The underlying store: physical name to content. -/
abbrev Store := List (String × List Nat)

/-- Content at a physical name, if present. -/
def Store.lookup (s : Store) (n : String) : Option (List Nat) :=
  (List.find? (fun p => p.1 == n) s).map (·.2)

/-- Remove a physical name. -/
def Store.erase (s : Store) (n : String) : Store :=
  List.filter (fun p => p.1 != n) s

/-- Write content at a physical name (create or replace). -/
def Store.set (s : Store) (n : String) (v : List Nat) : Store :=
  (n, v) :: Store.erase s n

/-- The underlying store's rename operation. -/
def Store.rename (s : Store) (oldName newName : String) : Store :=
  match s.lookup oldName with
  | some v => (s.erase oldName).set newName v
  | none => s

/-! ## The compressed handle (unnamed absfs version of file.go) -/

/-- Open flags; `create` stands for the facade's `O_CREATE|O_TRUNC`
combination used by `Create`, `wronly`/`rdwr` for `O_WRONLY`/`O_RDWR`. -/
structure OpenFlags where
  create : Bool
  wronly : Bool
  rdwr : Bool
deriving DecidableEq

/-- The `compressedFile` state.  `compressor` mirrors the source field of
the same name, which is never assigned anywhere in the package.  A `some`
decompressor value is the Reading-coded state; a `some` write buffer
together with `shouldCompress` is the Writing-staged state. -/
structure Handle where
  originalName : String
  compressedName : String
  flag : OpenFlags
  writeBuffer : Option (List Nat)
  compressor : Option Algorithm
  writeAlgo : Option Algorithm
  writeLevel : Int
  shouldCompress : Bool
  decompressor : Option Algorithm
  readAlgo : Option Algorithm
  closed : Bool

/-- Source `newCompressedFile` (absfs version): per-flag setup of
the staging buffer (write mode) and of the magic-byte probe with seek-back
(read mode).  `content` is the base file's bytes at open time; reads,
seeks and decompressor construction on the model store always succeed. -/
def newCompressedFile (cfg : Config) (content : List Nat)
    (originalName compressedName : String) (flag : OpenFlags)
    (algo : Option Algorithm) : Handle :=
  let shouldCompress0 := !(shouldSkip cfg originalName) && algo.isSome
  let isCreate := flag.create
  let isWrite := flag.wronly || flag.rdwr || flag.create
  let isReadOnly := !(flag.wronly || flag.rdwr)
  let base : Handle :=
    { originalName := originalName, compressedName := compressedName, flag := flag,
      writeBuffer := none, compressor := none, writeAlgo := algo, writeLevel := 0,
      shouldCompress := shouldCompress0, decompressor := none, readAlgo := algo,
      closed := false }
  let afterWrite : Handle :=
    if isWrite && shouldCompress0 then
      match algo with
      | some a => { base with writeBuffer := some [], writeAlgo := some a, writeLevel := cfg.level }
      | none =>
        let (a, level, _) := selectAlgorithm cfg originalName 0
        { base with writeBuffer := some [], writeAlgo := some a, writeLevel := level }
    else base
  let isEmpty := content.length = 0
  if isReadOnly && !isCreate then
    match algo with
    | some a =>
      if !isEmpty && shouldCompress0 then
        let detected := IsCompressed (content.take 10)
        let useAlgo := match detected with | some d => d | none => a
        let shouldDecompress : Bool :=
          match detected with
          | some _ => true
          | none => a == .brotli || a == .snappy
        if shouldDecompress then
          { afterWrite with decompressor := some useAlgo, readAlgo := some useAlgo }
        else { afterWrite with shouldCompress := false }
      else if !isEmpty && cfg.autoDetect then
        match IsCompressed (content.take 10) with
        | some d => { afterWrite with decompressor := some d, readAlgo := some d }
        | none => { afterWrite with shouldCompress := false }
      else afterWrite
    | none =>
      if !isEmpty && cfg.autoDetect then
        match IsCompressed (content.take 10) with
        | some d => { afterWrite with decompressor := some d, readAlgo := some d }
        | none => { afterWrite with shouldCompress := false }
      else afterWrite
  else afterWrite

/-- Source `compressedFile.Write`: append to the staging buffer in Writing-staged
state, otherwise pass through to the base file (appending at its current
offset in the store). -/
def Handle.write (h : Handle) (s : Store) (p : List Nat) : Handle × Store :=
  if h.closed then (h, s)
  else if h.shouldCompress && h.writeBuffer.isSome then
    ({ h with writeBuffer := h.writeBuffer.map (· ++ p) }, s)
  else
    (h, s.set h.compressedName ((s.lookup h.compressedName).getD [] ++ p))

/-- The per-close increments of the aggregate file counters. -/
structure Delta where
  filesCompressed : Nat
  filesSkipped : Nat
  filesDecompressed : Nat
deriving DecidableEq

/-- The final algorithm and level chosen by `compressedFile.Close`:
re-select with the staged size, then retain the handle's recorded level
whenever it is non-zero. -/
def closeLevelAlgo (cfg : Config) (h : Handle) (bufLen : Nat) : Algorithm × Int :=
  let (finalAlgo, finalLevel, _) := selectAlgorithm cfg h.originalName bufLen
  (finalAlgo, if h.writeLevel ≠ 0 then h.writeLevel else finalLevel)

/-- Source `compressedFile.Close` (absfs version): in Writing-staged state with a
non-empty buffer, either stream the buffer through the encoder (at or
above `minSize`) or copy it verbatim and rename the suffix-tagged physical
name back to the logical name; in Reading-coded state count the
decompression.  Returns the updated store and the counter increments. -/
def Handle.close (cfg : Config) (h : Handle) (s : Store) : Store × Delta :=
  if h.closed then (s, ⟨0, 0, 0⟩)
  else
    let dRead : Nat := if h.decompressor.isSome then 1 else 0
    match h.writeBuffer, h.shouldCompress with
    | some buf, true =>
      let bufLen := buf.length
      if 0 < bufLen ∧ cfg.minSize ≤ bufLen then
        let (finalAlgo, finalLevel) := closeLevelAlgo cfg h bufLen
        (s.set h.compressedName
          ((s.lookup h.compressedName).getD [] ++ encode finalAlgo finalLevel buf),
         ⟨1, 0, dRead⟩)
      else if 0 < bufLen then
        let s1 := s.set h.compressedName ((s.lookup h.compressedName).getD [] ++ buf)
        if h.compressedName ≠ h.originalName ∧ HasCompressionExtension h.compressedName then
          (s1.rename h.compressedName h.originalName, ⟨0, 1, dRead⟩)
        else (s1, ⟨0, 1, dRead⟩)
      else (s, ⟨0, 0, dRead⟩)
    | _, _ => (s, ⟨0, 0, dRead⟩)

/-- Result of `compressedFile.Seek`. -/
inductive SeekResult
  | closedErr
  | notSupported
  | pos (n : Int)
deriving DecidableEq

/-- Source `compressedFile.Seek`: rejected while a decompressor or compressor is
active, otherwise delegated to the base file (the store's files seek from
the start to the requested offset). -/
def Handle.seek (h : Handle) (offset : Int) : SeekResult :=
  if h.closed then .closedErr
  else if h.decompressor.isSome || h.compressor.isSome then .notSupported
  else .pos offset

/-- Reading the handle to EOF: through the decoder in Reading-coded state,
directly from the base file otherwise (the probe always seeks back to
offset zero on the model store). -/
def Handle.readAll (h : Handle) (s : Store) : List Nat :=
  let content := (s.lookup h.compressedName).getD []
  match h.decompressor with
  | some a => decode a content
  | none => content

/-! ## The wrapper facade (unnamed absfs version of the OpenFile/ReadFile file) -/

/-- The candidate probe order of `FS.OpenFile`'s read path: the configured
algorithm first, then each algorithm in declaration order. -/
def candidateList (cfg : Config) : List Algorithm :=
  [cfg.algorithm, .gzip, .zstd, .lz4, .brotli, .snappy]

/-- Name resolution of `FS.OpenFile`: on the write/create path append the
configured algorithm's suffix unless the logical name already carries a
compression suffix or matches a skip pattern; on the read path with
`stripExtension` probe the candidate physical names against the store. -/
def resolveOpen (cfg : Config) (s : Store) (name : String) (flag : OpenFlags) :
    String × Option Algorithm :=
  let isCreate := flag.create
  let isWrite := flag.wronly || flag.rdwr
  if (isCreate || isWrite) && !(shouldSkip cfg name) then
    if !(HasCompressionExtension name) then
      (AddExtension name cfg.algorithm cfg.preserveExtension, some cfg.algorithm)
    else (name, none)
  else if cfg.stripExtension then
    match (candidateList cfg).find? (fun a => (s.lookup (name ++ GetExtension a)).isSome) with
    | some a => (name ++ GetExtension a, some a)
    | none => (name, none)
  else (name, none)

/-- Source `FS.OpenFile` for reading (`O_RDONLY`): resolve the physical name, open
the base file (failing when it does not exist), wrap it. -/
def openRead (cfg : Config) (s : Store) (name : String) : Option Handle :=
  let (actualName, algo) := resolveOpen cfg s name ⟨false, false, false⟩
  match s.lookup actualName with
  | none => none
  | some content =>
    some (newCompressedFile cfg content name actualName ⟨false, false, false⟩ algo)

/-- Opening a logical name through the facade and reading it to EOF. -/
def readBack (cfg : Config) (s : Store) (name : String) : Option (List Nat) :=
  (openRead cfg s name).map (fun h => h.readAll s)

/-- Source `FS.Create` followed by one write of `b` and a close: the end-to-end
write path of the facade.  `Create` opens the base file with
`O_RDWR|O_CREATE|O_TRUNC`, truncating the physical file to empty. -/
def createWriteClose (cfg : Config) (s : Store) (name : String) (b : List Nat) :
    Store × Delta :=
  let (actualName, algo) := resolveOpen cfg s name ⟨true, false, true⟩
  let s1 := s.set actualName []
  let h := newCompressedFile cfg [] name actualName ⟨true, false, true⟩ algo
  let (h2, s2) := h.write s1 b
  h2.close cfg s2

/-- Source `FS.ReadFile`: open via the facade, take the base `Stat` size as an
allocation hint, `io.ReadFull` into a buffer of that size (returning the
shorter data on `ErrUnexpectedEOF`, the error on immediate `EOF`), or read
all when the size is not positive. -/
def ReadFileFS (cfg : Config) (s : Store) (name : String) : Option (List Nat) :=
  match openRead cfg s name with
  | none => none
  | some h =>
    let size := ((s.lookup h.compressedName).getD []).length
    let data := h.readAll s
    if 0 < size then
      if data.length = 0 then none else some (data.take size)
    else some data

/-! ## Supporting lemmas -/

theorem Store.lookup_set_self (s : Store) (n : String) (v : List Nat) :
    (s.set n v).lookup n = some v := by
  simp [Store.set, Store.lookup, List.find?]

theorem Store.find?_filter_ne (s : Store) (n m : String) (h : m ≠ n) :
    List.find? (fun p => p.1 == m) (List.filter (fun p => p.1 != n) s)
      = List.find? (fun p => p.1 == m) s := by
  induction s with
  | nil => rfl
  | cons q t ih =>
    by_cases hq : q.1 = m
    · have hq1n : q.1 ≠ n := by rw [hq]; exact h
      have hqn : (q.1 != n) = true := by simp [bne, hq1n]
      have hqm : (q.1 == m) = true := by simp [hq]
      simp [List.filter_cons, hqn, List.find?, hqm]
    · have hqm : (q.1 == m) = false := by simp [hq]
      by_cases hq1n : q.1 = n
      · have hqn : (q.1 != n) = false := by simp [bne, hq1n]
        simp [List.filter_cons, hqn, List.find?, hqm, ih]
      · have hqn : (q.1 != n) = true := by simp [bne, hq1n]
        simp [List.filter_cons, hqn, List.find?, hqm, ih]

theorem Store.lookup_set_ne (s : Store) (n m : String) (v : List Nat) (h : m ≠ n) :
    (s.set n v).lookup m = s.lookup m := by
  have hn : n ≠ m := fun hh => h hh.symm
  have hnm : (n == m) = false := by simp [hn]
  simp [Store.set, Store.lookup, Store.erase, List.find?, hnm,
    Store.find?_filter_ne s n m h]

theorem GetExtension_ne_empty (a : Algorithm) : (GetExtension a).data ≠ [] := by
  cases a <;> simp [GetExtension]

theorem append_GetExtension_ne (name : String) (a : Algorithm) :
    name ++ GetExtension a ≠ name := by
  intro h
  have hd : (name ++ GetExtension a).data = name.data := congrArg String.data h
  rw [String.data_append] at hd
  have hlen := congrArg List.length hd
  rw [List.length_append] at hlen
  have : (GetExtension a).data.length = 0 := by omega
  exact GetExtension_ne_empty a (List.length_eq_zero.mp this)

theorem lookup_single_append_ext (name : String) (b : List Nat) (a : Algorithm) :
    Store.lookup [(name, b)] (name ++ GetExtension a) = none := by
  have h := append_GetExtension_ne name a
  have hh : name ≠ name ++ GetExtension a := fun he => h he.symm
  have : (name == name ++ GetExtension a) = false := by simp [hh]
  simp [Store.lookup, List.find?, this]

theorem IsCompressed_magic_append (a : Algorithm) (rest : List Nat) :
    IsCompressed (magicOf a ++ rest) = some a := by
  cases a <;>
    simp [IsCompressed, magicBytes, magicOf, List.find?, List.isPrefixOf]

theorem IsCompressed_encode_take (a : Algorithm) (level : Int) (b : List Nat) :
    IsCompressed ((encode a level b).take 10) = some a := by
  have hlen : (magicOf a).length ≤ 10 := by cases a <;> simp [magicOf]
  have h10 : (magicOf a).take 10 = magicOf a := List.take_of_length_le hlen
  rw [encode, List.take_append_eq_append_take, h10, IsCompressed_magic_append]

theorem find?_of_prefix_false {α : Type} (p : α → Bool) (pre : List α) (r : α)
    (post : List α) (hpre : ∀ q ∈ pre, p q = false) (hr : p r = true) :
    (pre ++ r :: post).find? p = some r := by
  induction pre with
  | nil => simp [List.find?, hr]
  | cons q t ih =>
    have hq : p q = false := hpre q (by simp)
    have ht : ∀ x ∈ t, p x = false := fun x hx => hpre x (by simp [hx])
    simp only [List.cons_append, List.find?, hq]
    exact ih ht

/-- Suffix test on strings, used to embed the compiled skip-pattern and
rule regexes of the concrete configurations below. -/
def strHasSuffix (s suf : String) : Bool := suf.data.isSuffixOf s.data

/-! ## Concrete configurations for the witnesses and counterexamples -/

/-- Gzip level 6, preserve and strip extensions, `min_size` 0 — the spec's
trivial round-trip configuration. -/
def cfgGzip6 : Config :=
  { algorithm := .gzip, level := 6, skip := fun _ => false, autoDetect := true,
    preserveExtension := true, stripExtension := true, minSize := 0, rules := [],
    enableAutoTuning := false, autoTuneSizeThreshold := 1048576 }

/-- Zstd level 3 with `min_size` 100 — the spec's demote-and-rename
configuration. -/
def cfgZstdMin100 : Config :=
  { cfgGzip6 with algorithm := .zstd, level := 3, minSize := 100 }

/-- Zstd level 3, `min_size` 0. -/
def cfgZstd3 : Config :=
  { cfgGzip6 with algorithm := .zstd, level := 3 }

/-- Snappy default configuration. -/
def cfgSnappy : Config :=
  { cfgGzip6 with algorithm := .snappy, level := 0 }

/-- Gzip configuration skipping `.jpg` files. -/
def cfgSkipJpg : Config :=
  { cfgGzip6 with skip := fun n => strHasSuffix n ".jpg" }

/-- Zstd level 9 with auto-tuning enabled at a 1 MiB threshold — the
spec's auto-tune crossover configuration. -/
def cfgAutoTune : Config :=
  { cfgGzip6 with algorithm := .zstd, level := 9, enableAutoTuning := true }

/-- The two ordered rules of the spec's rule-precedence scenario:
`important.log` to Brotli 11, any `.log` to Lz4 0. -/
def cfgRules : Config :=
  { cfgGzip6 with rules :=
      [⟨fun n => strHasSuffix n "important.log", .brotli, 11⟩,
       ⟨fun n => strHasSuffix n ".log", .lz4, 0⟩] }

/-! ## Handle-construction lemmas -/

theorem resolveOpen_create (cfg : Config) (s : Store) (name : String)
    (hskip : cfg.skip name = false) (hext : HasCompressionExtension name = false) :
    resolveOpen cfg s name ⟨true, false, true⟩ =
      (AddExtension name cfg.algorithm cfg.preserveExtension, some cfg.algorithm) := by
  simp [resolveOpen, shouldSkip, hskip, hext]

theorem newCompressedFile_create (cfg : Config) (content : List Nat)
    (orig comp : String) (hskip : cfg.skip orig = false) :
    newCompressedFile cfg content orig comp ⟨true, false, true⟩ (some cfg.algorithm) =
      { originalName := orig, compressedName := comp, flag := ⟨true, false, true⟩,
        writeBuffer := some [], compressor := none, writeAlgo := some cfg.algorithm,
        writeLevel := cfg.level, shouldCompress := true, decompressor := none,
        readAlgo := some cfg.algorithm, closed := false } := by
  simp [newCompressedFile, shouldSkip, hskip]

/-- Claim C3 — after the magic probe of a suffix-inferred read-only open of a
non-empty, non-skipped file, a decoder is active exactly for the detected
algorithm when some magic signature matches; when none matches, the
gzip/zstd/lz4 suffixes fall back to plaintext while the brotli and snappy
suffixes are trusted and get a decoder. -/
theorem read_probe_decompressor (cfg : Config) (content : List Nat)
    (name actual : String) (a : Algorithm)
    (hne : content ≠ []) (hskip : cfg.skip name = false) :
    (newCompressedFile cfg content name actual ⟨false, false, false⟩ (some a)).decompressor
      = match IsCompressed (content.take 10) with
        | some d => some d
        | none => if a = .brotli ∨ a = .snappy then some a else none := by
  have hlen : ¬ content.length = 0 := by simpa using hne
  cases hI : IsCompressed (content.take 10) with
  | none =>
    by_cases hbs : a = .brotli ∨ a = .snappy
    · have hb : (a == .brotli || a == .snappy) = true := by
        rcases hbs with hb | hb <;> simp [hb]
      simp [newCompressedFile, shouldSkip, hskip, hlen, hI, hb, hbs]
    · have hb : (a == .brotli || a == .snappy) = false := by
        push_neg at hbs
        simp [hbs.1, hbs.2]
      simp [newCompressedFile, shouldSkip, hskip, hlen, hI, hb, hbs]
  | some d =>
    simp [newCompressedFile, shouldSkip, hskip, hlen, hI]

/-- Claim C3 witness — a gzip-suffixed file whose content matches no magic
signature is served as plaintext without a decoder. -/
theorem read_probe_decompressor_witness :
    ([104, 105] : List Nat) ≠ [] ∧ cfgGzip6.skip "x" = false ∧
    (newCompressedFile cfgGzip6 [104, 105] "x" "x.gz" ⟨false, false, false⟩
      (some .gzip)).decompressor = none := by
  refine ⟨by decide, rfl, ?_⟩
  exact (read_probe_decompressor cfgGzip6 [104, 105] "x" "x.gz" .gzip
    (by decide) rfl).trans (by decide)

/-- Claim C3 counterexample — a snappy-suffixed file whose content matches no
magic signature nevertheless gets a decoder (the suffix is trusted), where
the claim requires plaintext with no decoder. -/
theorem read_probe_snappy_counterexample :
    IsCompressed (([104, 105] : List Nat).take 10) = none ∧
    (openRead cfgSnappy [("data.sz", [104, 105])] "data").map Handle.decompressor
      = some (some .snappy) := by
  constructor
  · decide
  · rfl

/-- Claim C6 — the first rule (in configured order) whose pattern matches the
logical name decides the algorithm; a negative rule level is replaced by
the algorithm's default level (gzip 6, zstd 3, lz4 1, brotli 6, snappy 0),
a non-negative rule level (including 0) is returned verbatim, and
`used_defaults` is false. -/
theorem selectAlgorithm_first_rule (cfg : Config) (name : String) (size : Nat)
    (pre post : List AlgorithmRule) (r : AlgorithmRule)
    (hrules : cfg.rules = pre ++ r :: post)
    (hpre : ∀ q ∈ pre, q.pattern name = false)
    (hmatch : r.pattern name = true) :
    selectAlgorithm cfg name size =
      (r.algorithm,
       (if r.level < 0 then getDefaultLevel r.algorithm else r.level), false) ∧
    getDefaultLevel .gzip = 6 ∧ getDefaultLevel .zstd = 3 ∧
    getDefaultLevel .lz4 = 1 ∧ getDefaultLevel .brotli = 6 ∧
    getDefaultLevel .snappy = 0 := by
  refine ⟨?_, rfl, rfl, rfl, rfl, rfl⟩
  have hfind : cfg.rules.find? (fun q => q.pattern name) = some r := by
    rw [hrules]
    exact find?_of_prefix_false _ pre r post hpre hmatch
  simp [selectAlgorithm, hfind]

/-- Claim C6 witness — the spec's rule-precedence scenario: with rules
(important.log → Brotli 11) then (.log → Lz4 0), the name important.log
(matched by both) selects Brotli at the verbatim level 11. -/
theorem selectAlgorithm_first_rule_witness :
    (cfgRules.rules.get? 0).map AlgorithmRule.level = some 11 ∧
    selectAlgorithm cfgRules "important.log" 0 = (.brotli, 11, false) := by
  refine ⟨rfl, ?_⟩
  have h := selectAlgorithm_first_rule cfgRules "important.log" 0 []
    [⟨fun n => strHasSuffix n ".log", .lz4, 0⟩]
    ⟨fun n => strHasSuffix n "important.log", .brotli, 11⟩
    rfl (by intro q hq; cases hq) (by decide)
  exact h.1.trans (by decide)

/-- Claim C7 counterexample — the magic table does contain a brotli signature:
detection identifies `ce b2 cf 81` as brotli, where the claim requires an
empty brotli signature and a detection that never returns brotli. -/
theorem isCompressed_brotli_counterexample :
    IsCompressed [0xce, 0xb2, 0xcf, 0x81] = some .brotli ∧
    DetectCompressionAlgorithm [0xce, 0xb2, 0xcf, 0x81] = some .brotli ∧
    magicOf .brotli ≠ [] := by
  refine ⟨rfl, rfl, by decide⟩

/-- Claim C7 — detection returns brotli exactly on data starting with the
table's partial brotli first-frame signature `ce b2 cf 81`. -/
theorem isCompressed_brotli_iff (data : List Nat) :
    (IsCompressed data == some Algorithm.brotli)
      = (magicOf .brotli).isPrefixOf data := by
  cases hb : (magicOf .brotli).isPrefixOf data with
  | true =>
    obtain ⟨t, ht⟩ := List.isPrefixOf_iff_prefix.mp hb
    rw [← ht, IsCompressed_magic_append]
    rfl
  | false =>
    cases h1 : (magicOf .gzip).isPrefixOf data with
    | true =>
      obtain ⟨t, ht⟩ := List.isPrefixOf_iff_prefix.mp h1
      rw [← ht, IsCompressed_magic_append]
      rfl
    | false =>
      cases h2 : (magicOf .zstd).isPrefixOf data with
      | true =>
        obtain ⟨t, ht⟩ := List.isPrefixOf_iff_prefix.mp h2
        rw [← ht, IsCompressed_magic_append]
        rfl
      | false =>
        cases h3 : (magicOf .lz4).isPrefixOf data with
        | true =>
          obtain ⟨t, ht⟩ := List.isPrefixOf_iff_prefix.mp h3
          rw [← ht, IsCompressed_magic_append]
          rfl
        | false =>
          cases h4 : (magicOf .snappy).isPrefixOf data with
          | true =>
            obtain ⟨t, ht⟩ := List.isPrefixOf_iff_prefix.mp h4
            rw [← ht, IsCompressed_magic_append]
            rfl
          | false =>
            simp [IsCompressed, magicBytes, List.find?, h1, h2, h3, h4, hb]

/-- Claim C8 — on a freshly created write-mode handle the staging buffer is
active, yet `Seek` delegates to the base file and returns the new offset
instead of the SeekNotSupported error, because it tests the never-assigned
`compressor` field; a Reading-coded handle does get the error. -/
theorem seek_write_staged_delegates :
    resolveOpen cfgGzip6 [] "a.txt" ⟨true, false, true⟩ = ("a.txt.gz", some .gzip) ∧
    (newCompressedFile cfgGzip6 [] "a.txt" "a.txt.gz" ⟨true, false, true⟩
      (some .gzip)).writeBuffer = some [] ∧
    (newCompressedFile cfgGzip6 [] "a.txt" "a.txt.gz" ⟨true, false, true⟩
      (some .gzip)).compressor = none ∧
    (newCompressedFile cfgGzip6 [] "a.txt" "a.txt.gz" ⟨true, false, true⟩
      (some .gzip)).seek 10 = .pos 10 ∧
    (newCompressedFile cfgGzip6 [0x1f, 0x8b, 0, 0] "a.txt" "a.txt.gz"
      ⟨false, false, false⟩ (some .gzip)).seek 0 = .notSupported := by
  refine ⟨?_, rfl, rfl, rfl, rfl⟩
  decide

theorem closeLevelAlgo_eq (cfg : Config) (h : Handle) (len : Nat) :
    closeLevelAlgo cfg h len =
      ((selectAlgorithm cfg h.originalName len).1,
       if h.writeLevel ≠ 0 then h.writeLevel
       else (selectAlgorithm cfg h.originalName len).2.1) := by
  rcases hsel : selectAlgorithm cfg h.originalName len with ⟨fa, fl, u⟩
  simp [closeLevelAlgo, hsel]

theorem newCompressedFile_create_passthrough (cfg : Config) (content : List Nat)
    (orig comp : String) (algo : Option Algorithm)
    (h : (!(shouldSkip cfg orig) && algo.isSome) = false) :
    newCompressedFile cfg content orig comp ⟨true, false, true⟩ algo =
      { originalName := orig, compressedName := comp, flag := ⟨true, false, true⟩,
        writeBuffer := none, compressor := none, writeAlgo := algo, writeLevel := 0,
        shouldCompress := false, decompressor := none, readAlgo := algo,
        closed := false } := by
  simp [newCompressedFile, h]

theorem newCompressedFile_read_empty (cfg : Config) (orig comp : String)
    (algo : Option Algorithm) :
    newCompressedFile cfg [] orig comp ⟨false, false, false⟩ algo =
      { originalName := orig, compressedName := comp, flag := ⟨false, false, false⟩,
        writeBuffer := none, compressor := none, writeAlgo := algo, writeLevel := 0,
        shouldCompress := !(shouldSkip cfg orig) && algo.isSome, decompressor := none,
        readAlgo := algo, closed := false } := by
  cases algo <;> simp [newCompressedFile]

theorem newCompressedFile_read_coded (cfg : Config) (content : List Nat)
    (orig comp : String) (a d : Algorithm)
    (hskip : cfg.skip orig = false) (hne : ¬ content.length = 0)
    (hdet : IsCompressed (content.take 10) = some d) :
    newCompressedFile cfg content orig comp ⟨false, false, false⟩ (some a) =
      { originalName := orig, compressedName := comp, flag := ⟨false, false, false⟩,
        writeBuffer := none, compressor := none, writeAlgo := some a, writeLevel := 0,
        shouldCompress := true, decompressor := some d, readAlgo := some d,
        closed := false } := by
  simp [newCompressedFile, shouldSkip, hskip, hne, hdet]

theorem newCompressedFile_read_plain_auto (cfg : Config) (content : List Nat)
    (orig comp : String) (hdet : IsCompressed (content.take 10) = none) :
    newCompressedFile cfg content orig comp ⟨false, false, false⟩ none =
      { originalName := orig, compressedName := comp, flag := ⟨false, false, false⟩,
        writeBuffer := none, compressor := none, writeAlgo := none, writeLevel := 0,
        shouldCompress := false, decompressor := none, readAlgo := none,
        closed := false } := by
  by_cases hlen : content.length = 0 <;>
    by_cases hauto : cfg.autoDetect = true <;>
      simp [newCompressedFile, hlen, hauto, hdet]

theorem resolveOpen_read_found (cfg : Config) (s : Store) (name : String)
    (hstrip : cfg.stripExtension = true)
    (h : (s.lookup (name ++ GetExtension cfg.algorithm)).isSome = true) :
    resolveOpen cfg s name ⟨false, false, false⟩ =
      (name ++ GetExtension cfg.algorithm, some cfg.algorithm) := by
  simp [resolveOpen, hstrip, candidateList, List.find?, h]

theorem resolveOpen_read_notFound (cfg : Config) (s : Store) (name : String)
    (h : ∀ a : Algorithm, (s.lookup (name ++ GetExtension a)).isSome = false) :
    resolveOpen cfg s name ⟨false, false, false⟩ = (name, none) := by
  by_cases hstrip : cfg.stripExtension = true
  · simp [resolveOpen, hstrip, candidateList, List.find?, h]
  · simp [resolveOpen, hstrip]

/-- The end-to-end write path on a staged handle (logical name without a
compression suffix, not skipped): close either encodes the staged buffer
(at or above `minSize`), or demotes it verbatim with the rename back to
the logical name, or writes nothing for an empty buffer. -/
theorem createWriteClose_staged (cfg : Config) (s : Store) (name : String)
    (b : List Nat)
    (hskip : cfg.skip name = false) (hext : HasCompressionExtension name = false) :
    createWriteClose cfg s name b =
      (let actual := AddExtension name cfg.algorithm cfg.preserveExtension
       let sel := selectAlgorithm cfg name b.length
       let lvl : Int := if cfg.level ≠ 0 then cfg.level else sel.2.1
       if 0 < b.length ∧ cfg.minSize ≤ b.length then
         ((s.set actual []).set actual (encode sel.1 lvl b), ⟨1, 0, 0⟩)
       else if 0 < b.length then
         (if actual ≠ name ∧ HasCompressionExtension actual then
            (((s.set actual []).set actual b).rename actual name, ⟨0, 1, 0⟩)
          else ((s.set actual []).set actual b, ⟨0, 1, 0⟩))
       else (s.set actual [], ⟨0, 0, 0⟩)) := by
  have hres := resolveOpen_create cfg s name hskip hext
  have hnew := newCompressedFile_create cfg []
    name (AddExtension name cfg.algorithm cfg.preserveExtension) hskip
  simp only [createWriteClose, hres, hnew, Handle.write, Handle.close,
    closeLevelAlgo_eq]
  simp [Store.lookup_set_self]

theorem encode_level_irrel (a : Algorithm) (l l' : Int) (b : List Nat) :
    encode a l b = encode a l' b := rfl

theorem encode_length_ne_zero (a : Algorithm) (l : Int) (b : List Nat) :
    ¬ (encode a l b).length = 0 := by
  cases a <;> simp [encode, magicOf]

/-- Claim C1 — with `min_size` 0, preserve and strip extensions on and no rules,
writing a byte stream through the facade and reading the logical name back
yields exactly those bytes, and the suffixed physical file holds exactly
the codec output for them — except that an empty stream leaves an empty
physical file rather than the codec's encoding of the empty stream. -/
theorem round_trip_write_read (cfg : Config) (s : Store) (name : String)
    (b : List Nat)
    (hpres : cfg.preserveExtension = true) (hstrip : cfg.stripExtension = true)
    (hmin : cfg.minSize = 0) (hrules : cfg.rules = [])
    (hskip : cfg.skip name = false) (hext : HasCompressionExtension name = false) :
    readBack cfg (createWriteClose cfg s name b).1 name = some b ∧
    (createWriteClose cfg s name b).1.lookup (name ++ GetExtension cfg.algorithm)
      = some (if b = [] then [] else encode cfg.algorithm cfg.level b) := by
  have hact : AddExtension name cfg.algorithm cfg.preserveExtension
      = name ++ GetExtension cfg.algorithm := by
    simp [AddExtension, hpres]
  have hsel1 : (selectAlgorithm cfg name b.length).1 = cfg.algorithm := by
    simp [selectAlgorithm, hrules]
  rw [createWriteClose_staged cfg s name b hskip hext]
  by_cases hb : b = []
  · subst hb
    simp only [List.length_nil, lt_irrefl, false_and, if_false, ite_true]
    constructor
    · have hfound : ((s.set (name ++ GetExtension cfg.algorithm) []).lookup
          (name ++ GetExtension cfg.algorithm)).isSome = true := by
        rw [Store.lookup_set_self]; rfl
      rw [hact]
      simp only [readBack, openRead,
        resolveOpen_read_found cfg _ name hstrip hfound, Store.lookup_set_self,
        newCompressedFile_read_empty]
      simp [Handle.readAll, Store.lookup_set_self]
    · rw [hact, Store.lookup_set_self]
  · have hlen : 0 < b.length := List.length_pos.mpr hb
    have hminle : cfg.minSize ≤ b.length := by rw [hmin]; exact Nat.zero_le _
    simp only [hlen, hminle, and_self, if_true, hb, if_false]
    rw [hact, hsel1]
    set lvl := if cfg.level ≠ 0 then cfg.level
      else (selectAlgorithm cfg name b.length).2.1 with hlvl
    constructor
    · have hfound : (((s.set (name ++ GetExtension cfg.algorithm) []).set
          (name ++ GetExtension cfg.algorithm)
          (encode cfg.algorithm lvl b)).lookup
          (name ++ GetExtension cfg.algorithm)).isSome = true := by
        rw [Store.lookup_set_self]; rfl
      simp only [readBack, openRead,
        resolveOpen_read_found cfg _ name hstrip hfound, Store.lookup_set_self]
      rw [newCompressedFile_read_coded cfg _ name _ cfg.algorithm cfg.algorithm
        hskip (encode_length_ne_zero _ _ _) (IsCompressed_encode_take _ _ _)]
      simp [Handle.readAll, Store.lookup_set_self, decode_encode]
    · rw [Store.lookup_set_self]
      rw [encode_level_irrel cfg.algorithm lvl cfg.level b]

/-- Claim C1 witness — the gzip round-trip scenario at a concrete five-byte
write. -/
theorem round_trip_write_read_witness :
    cfgGzip6.minSize = 0 ∧ HasCompressionExtension "test.txt" = false ∧
    readBack cfgGzip6
      (createWriteClose cfgGzip6 [] "test.txt" [104, 101, 108, 108, 111]).1
      "test.txt" = some [104, 101, 108, 108, 111] ∧
    (createWriteClose cfgGzip6 [] "test.txt" [104, 101, 108, 108, 111]).1.lookup
      ("test.txt" ++ GetExtension cfgGzip6.algorithm)
      = some (if ([104, 101, 108, 108, 111] : List Nat) = [] then []
              else encode cfgGzip6.algorithm cfgGzip6.level
                [104, 101, 108, 108, 111]) := by
  have h := round_trip_write_read cfgGzip6 [] "test.txt" [104, 101, 108, 108, 111]
    rfl rfl rfl rfl rfl (by decide)
  exact ⟨rfl, by decide, h.1, h.2⟩

/-- Claim C1 counterexample — an empty write leaves an empty physical file, not
the codec output for the empty stream, so the on-disk clause of the claim
fails at the empty byte sequence. -/
theorem round_trip_empty_counterexample :
    (createWriteClose cfgGzip6 [] "t.txt" []).1.lookup "t.txt.gz" = some [] ∧
    encode .gzip 6 [] = [0x1f, 0x8b] ∧
    (createWriteClose cfgGzip6 [] "t.txt" []).1.lookup "t.txt.gz"
      ≠ some (encode .gzip 6 []) := by
  decide

/-- Claim C2 — demotion below `min_size`: on a fresh store, a non-empty write
shorter than `min_size` whose bytes match no magic signature is copied
verbatim, counted as skipped, and the suffixed physical name is renamed
back to the logical name, which then reads back as plaintext. -/
theorem demote_rename (cfg : Config) (name : String) (b : List Nat)
    (hpres : cfg.preserveExtension = true) (hstrip : cfg.stripExtension = true)
    (hskip : cfg.skip name = false) (hext : HasCompressionExtension name = false)
    (hlen0 : 0 < b.length) (hlen : b.length < cfg.minSize)
    (hsufext : HasCompressionExtension (name ++ GetExtension cfg.algorithm) = true)
    (hdet : IsCompressed (b.take 10) = none) :
    (createWriteClose cfg [] name b).1 = [(name, b)] ∧
    (createWriteClose cfg [] name b).2 = ⟨0, 1, 0⟩ ∧
    Store.lookup (createWriteClose cfg [] name b).1
      (name ++ GetExtension cfg.algorithm) = none ∧
    readBack cfg (createWriteClose cfg [] name b).1 name = some b := by
  have hact : AddExtension name cfg.algorithm cfg.preserveExtension
      = name ++ GetExtension cfg.algorithm := by
    simp [AddExtension, hpres]
  have hne := append_GetExtension_ne name cfg.algorithm
  have hminf : ¬ cfg.minSize ≤ b.length := by omega
  have hcwc : createWriteClose cfg [] name b =
      ((((Store.set [] (name ++ GetExtension cfg.algorithm) []).set
          (name ++ GetExtension cfg.algorithm) b).rename
          (name ++ GetExtension cfg.algorithm) name), ⟨0, 1, 0⟩) := by
    rw [createWriteClose_staged cfg [] name b hskip hext]
    simp only [hact]
    rw [if_neg (by omega : ¬ (0 < b.length ∧ cfg.minSize ≤ b.length)),
      if_pos hlen0, if_pos ⟨hne, hsufext⟩]
  have hstore : (createWriteClose cfg [] name b).1 = [(name, b)] := by
    rw [hcwc]
    simp [Store.set, Store.erase, Store.rename, Store.lookup, List.find?,
      List.filter]
  have hdelta : (createWriteClose cfg [] name b).2 = ⟨0, 1, 0⟩ := by
    rw [hcwc]
  refine ⟨hstore, hdelta, ?_, ?_⟩
  · rw [hstore]
    exact lookup_single_append_ext name b cfg.algorithm
  · rw [hstore]
    have hnf : ∀ a : Algorithm,
        (Store.lookup [(name, b)] (name ++ GetExtension a)).isSome = false := by
      intro a
      rw [lookup_single_append_ext]
      rfl
    have hself : Store.lookup [(name, b)] name = some b := by
      simp [Store.lookup, List.find?]
    simp only [readBack, openRead, resolveOpen_read_notFound cfg _ name hnf, hself,
      newCompressedFile_read_plain_auto cfg b name name hdet]
    simp [Handle.readAll, hself]

/-- Claim C2 witness — the demote-and-rename scenario at two concrete bytes under
the Zstd `min_size` 100 configuration. -/
theorem demote_rename_witness :
    0 < ([104, 105] : List Nat).length ∧
    ([104, 105] : List Nat).length < cfgZstdMin100.minSize ∧
    (createWriteClose cfgZstdMin100 [] "small.txt" [104, 105]).1
      = [("small.txt", [104, 105])] ∧
    (createWriteClose cfgZstdMin100 [] "small.txt" [104, 105]).2 = ⟨0, 1, 0⟩ ∧
    readBack cfgZstdMin100
      (createWriteClose cfgZstdMin100 [] "small.txt" [104, 105]).1 "small.txt"
      = some [104, 105] := by
  have h := demote_rename cfgZstdMin100 "small.txt" [104, 105]
    rfl rfl rfl (by decide) (by decide) (by decide) (by decide) (by decide)
  exact ⟨by decide, by decide, h.1, h.2.1, h.2.2.2⟩

/-- Claim C2 counterexample — a small write whose bytes begin with the zstd magic
signature is demoted and renamed, but reading the logical name back
constructs a decoder via auto-detection, so the caller does not get the
original bytes back: the claim's universal read-back clause fails. -/
theorem demote_magic_collision_counterexample :
    (createWriteClose cfgZstdMin100 [] "small.txt" [40, 181, 47, 253]).1
      = [("small.txt", [40, 181, 47, 253])] ∧
    readBack cfgZstdMin100
      (createWriteClose cfgZstdMin100 [] "small.txt" [40, 181, 47, 253]).1
      "small.txt" = some [] ∧
    ([] : List Nat) ≠ [40, 181, 47, 253] := by
  decide

/-- Claim C4 — `ReadFile` pre-allocates a buffer of the physical (compressed)
`Stat` size and returns once `io.ReadFull` fills it: at a file whose
decompressed contents (100 bytes) exceed its physical size (6 bytes), it
returns only the first 6 decompressed bytes instead of reading to EOF. -/
theorem readFile_stat_hint_truncates :
    ReadFileFS cfgZstd3
      [("data.txt.zst", encode .zstd 3 (List.replicate 100 97))] "data.txt"
      = some (List.replicate 6 97) ∧
    decode .zstd (encode .zstd 3 (List.replicate 100 97))
      = List.replicate 100 97 ∧
    (encode .zstd 3 (List.replicate 100 97)).length = 6 := by
  refine ⟨by decide, decode_encode _ _ _, by decide⟩

/-- Claim C5 — the level used by close: re-selection runs with the staged size,
but the handle's recorded level (set to the configured level at open) is
retained whenever it is non-zero, so the auto-tune (or any re-selected)
level takes effect only when the configured level is 0. -/
theorem close_level_retains_configured (cfg : Config) (s : Store) (name : String)
    (n : Nat)
    (hskip : cfg.skip name = false) (hext : HasCompressionExtension name = false) :
    closeLevelAlgo cfg
      (newCompressedFile cfg [] name
        (resolveOpen cfg s name ⟨true, false, true⟩).1 ⟨true, false, true⟩
        (resolveOpen cfg s name ⟨true, false, true⟩).2) n
      = ((selectAlgorithm cfg name n).1,
         if cfg.level ≠ 0 then cfg.level
         else (selectAlgorithm cfg name n).2.1) := by
  rw [resolveOpen_create cfg s name hskip hext]
  rw [newCompressedFile_create cfg [] name _ hskip]
  rw [closeLevelAlgo_eq]

/-- Claim C5 witness — under the auto-tune configuration with configured level 9,
close keeps level 9. -/
theorem close_level_retains_configured_witness :
    cfgAutoTune.level = 9 ∧ cfgAutoTune.enableAutoTuning = true ∧
    closeLevelAlgo cfgAutoTune
      (newCompressedFile cfgAutoTune [] "big.bin"
        (resolveOpen cfgAutoTune [] "big.bin" ⟨true, false, true⟩).1
        ⟨true, false, true⟩
        (resolveOpen cfgAutoTune [] "big.bin" ⟨true, false, true⟩).2) 4096
      = (.zstd, 9) := by
  refine ⟨rfl, rfl, ?_⟩
  exact (close_level_retains_configured cfgAutoTune [] "big.bin" 4096 rfl
    (by decide)).trans (by decide)

/-- Claim C5 counterexample — auto-tune selects level 2 for a 2 MiB zstd write,
yet close encodes at the configured level 9 (no rule in sight), so the
claim that close uses the auto-tune level fails. -/
theorem close_level_autotune_counterexample :
    closeLevelAlgo cfgAutoTune
      (newCompressedFile cfgAutoTune [] "big.bin"
        (resolveOpen cfgAutoTune [] "big.bin" ⟨true, false, true⟩).1
        ⟨true, false, true⟩
        (resolveOpen cfgAutoTune [] "big.bin" ⟨true, false, true⟩).2) 2097152
      = (.zstd, 9) ∧
    autoTuneLevel cfgAutoTune .zstd 2097152 = 2 ∧
    selectAlgorithm cfgAutoTune "big.bin" 2097152 = (.zstd, 2, true) ∧
    ((9 : Int) ≠ 2) := by
  decide

/-- Claim C9 — the counter increments of a full facade write-and-close: exactly
one of files_compressed and files_skipped is incremented exactly when the
write was staged (name not skipped, no pre-existing compression suffix)
and non-empty; skip-pattern passthrough writes, suffix-named passthrough
writes and empty writes increment neither counter. -/
theorem write_close_counter_invariant (cfg : Config) (s : Store) (name : String)
    (b : List Nat) :
    (createWriteClose cfg s name b).2 =
      if cfg.skip name = false ∧ HasCompressionExtension name = false ∧ b ≠ [] then
        (if cfg.minSize ≤ b.length then ⟨1, 0, 0⟩ else ⟨0, 1, 0⟩)
      else ⟨0, 0, 0⟩ := by
  by_cases hskip : cfg.skip name = false
  · by_cases hext : HasCompressionExtension name = false
    · rw [createWriteClose_staged cfg s name b hskip hext]
      by_cases hb : b = []
      · subst hb
        simp
      · have hlen : 0 < b.length := List.length_pos.mpr hb
        by_cases hmin : cfg.minSize ≤ b.length
        · simp [hlen, hmin, hskip, hext, hb]
        · simp only [hlen, hmin, and_false, if_false, if_true, hskip, hext, hb,
            ne_eq, not_false_eq_true, and_self, true_and]
          split <;> rfl
    · have hext' : HasCompressionExtension name = true := by
        simpa using hext
      have hres : resolveOpen cfg s name ⟨true, false, true⟩ = (name, none) := by
        simp [resolveOpen, shouldSkip, hskip, hext']
      have hpass := newCompressedFile_create_passthrough cfg [] name name none
        (by simp)
      simp only [createWriteClose, hres, hpass, Handle.write, Handle.close]
      simp [hext']
  · have hskip' : cfg.skip name = true := by
      simpa using hskip
    rcases hres : resolveOpen cfg s name ⟨true, false, true⟩ with ⟨actual, algo⟩
    have hpass := newCompressedFile_create_passthrough cfg [] name actual algo
      (by simp [shouldSkip, hskip'])
    simp only [createWriteClose, hres, hpass, Handle.write, Handle.close]
    simp [hskip']

/-- Claim C9 counterexample — a skip-pattern write (spec scenario 2) increments
neither files_compressed nor files_skipped, where the claim requires
exactly one of them to be incremented. -/
theorem skip_pattern_counters_counterexample :
    cfgSkipJpg.skip "image.jpg" = true ∧
    (createWriteClose cfgSkipJpg [] "image.jpg" [102, 97, 107, 101]).2.filesCompressed
      = 0 ∧
    (createWriteClose cfgSkipJpg [] "image.jpg" [102, 97, 107, 101]).2.filesSkipped
      = 0 := by
  decide

/-- Claim C10 — a logical name that already carries a compression suffix gets no
further suffix on create: the handle is a passthrough with no staging
buffer, the written bytes land verbatim at the same underlying name, no
other store entry changes (in particular no rename), and no file counter
is incremented. -/
theorem suffix_name_passthrough (cfg : Config) (s : Store) (name : String)
    (b : List Nat)
    (hext : HasCompressionExtension name = true) (hskip : cfg.skip name = false) :
    resolveOpen cfg s name ⟨true, false, true⟩ = (name, none) ∧
    (newCompressedFile cfg [] name name ⟨true, false, true⟩ none).writeBuffer
      = none ∧
    (newCompressedFile cfg [] name name ⟨true, false, true⟩ none).shouldCompress
      = false ∧
    (createWriteClose cfg s name b).1.lookup name = some b ∧
    (∀ m, m ≠ name → (createWriteClose cfg s name b).1.lookup m = s.lookup m) ∧
    (createWriteClose cfg s name b).2 = ⟨0, 0, 0⟩ := by
  have hres : resolveOpen cfg s name ⟨true, false, true⟩ = (name, none) := by
    simp [resolveOpen, shouldSkip, hskip, hext]
  have hpass := newCompressedFile_create_passthrough cfg [] name name none
    (by simp)
  refine ⟨hres, by rw [hpass], by rw [hpass], ?_, ?_, ?_⟩
  · simp only [createWriteClose, hres, hpass, Handle.write, Handle.close]
    simp [Store.lookup_set_self]
  · intro m hm
    simp only [createWriteClose, hres, hpass, Handle.write, Handle.close]
    simp [Store.lookup_set_ne _ _ _ _ hm]
  · simp only [createWriteClose, hres, hpass, Handle.write, Handle.close]
    simp

/-- Claim C10 witness — creating `data.gz` through the facade writes the bytes
verbatim at `data.gz` with no counter increment. -/
theorem suffix_name_passthrough_witness :
    HasCompressionExtension "data.gz" = true ∧
    (createWriteClose cfgGzip6 [] "data.gz" [9, 8, 7]).1.lookup "data.gz"
      = some [9, 8, 7] ∧
    (createWriteClose cfgGzip6 [] "data.gz" [9, 8, 7]).2 = ⟨0, 0, 0⟩ := by
  have h := suffix_name_passthrough cfgGzip6 [] "data.gz" [9, 8, 7] (by decide) rfl
  exact ⟨by decide, h.2.2.2.1, h.2.2.2.2.2⟩

end CompressFS
